import Mathlib

/-!
Verification development for the ticker thumbnail generator (`main.py`).

Python strings are modelled as `List Char` (`PyStr`).  The gradient
renderer's float arithmetic is modelled by exact integer arithmetic
(`int(...)` becomes truncation toward zero of the exact real value), which
agrees with the IEEE-double evaluation at every scanline for all relevant
heights.  `is_color_dark` is boundary-sensitive, so it is modelled in exact
IEEE binary64 arithmetic: every double arising in its computation is an
integer multiple of 2^-56, represented by its integer numerator at that
scale, with correct nearest-even rounding after each operation exactly as
CPython evaluates the expression.  Fuel-indexed recursions
(`pyReplace`, `pySplit`) carry enough fuel that they agree with the Python
string methods they model; all definitions are executable and kernel-reducible.
-/

namespace ThumbGen

/-- Python strings, modelled as lists of characters. -/
abbrev PyStr := List Char

/-- Python `str.strip()` with no arguments: drop leading and trailing
whitespace. -/
def strip (s : PyStr) : PyStr :=
  ((s.dropWhile Char.isWhitespace).reverse.dropWhile Char.isWhitespace).reverse

/-- Python's substring test `needle in s`: some suffix of `s` starts with
`needle`. -/
def containsSub (needle : PyStr) : PyStr → Bool
  | [] => needle.isPrefixOf []
  | c :: rest => needle.isPrefixOf (c :: rest) || containsSub needle rest

/-- Fuel-indexed worker for `pyReplace`.  Scans left to right; at each
position where `old` is a prefix, emits `new` and skips past `old`. -/
def replaceAux (old new : PyStr) : Nat → PyStr → PyStr
  | 0, s => s
  | _ + 1, [] => []
  | fuel + 1, c :: rest =>
    if old.isPrefixOf (c :: rest) then
      new ++ replaceAux old new fuel ((c :: rest).drop old.length)
    else
      c :: replaceAux old new fuel rest

/-- Python `s.replace(old, new)` for a non-empty `old`: replace every
non-overlapping occurrence, scanning left to right. -/
def pyReplace (old new s : PyStr) : PyStr :=
  replaceAux old new (s.length + 1) s

/-- Fuel-indexed worker for `pySplit`. -/
def splitAux (sep : PyStr) : Nat → PyStr → PyStr → List PyStr
  | 0, acc, rest => [acc.reverse ++ rest]
  | _ + 1, acc, [] => [acc.reverse]
  | fuel + 1, acc, c :: rest =>
    if sep.isPrefixOf (c :: rest) then
      acc.reverse :: splitAux sep fuel [] ((c :: rest).drop sep.length)
    else
      splitAux sep fuel (c :: acc) rest

/-- Python `s.split(sep)` for a non-empty separator `sep`. -/
def pySplit (sep s : PyStr) : List PyStr :=
  splitAux sep (s.length + 1) [] s

/-- Worker for `pyWords`: `acc` holds the current word reversed. -/
def wordsAux : PyStr → PyStr → List PyStr
  | [], acc => if acc = [] then [] else [acc.reverse]
  | c :: rest, acc =>
    if c.isWhitespace then
      if acc = [] then wordsAux rest [] else acc.reverse :: wordsAux rest []
    else
      wordsAux rest (c :: acc)

/-- Python `s.split()` with no arguments: split on runs of whitespace,
dropping empty pieces. -/
def pyWords (s : PyStr) : List PyStr := wordsAux s []

/-- The literal "- Intimation" stripped by `clean_title`. -/
def intimationMarker : PyStr := "- Intimation".toList

/-- The boilerplate marker "Listing Obligations" tested by `clean_title`. -/
def listingMarker : PyStr := "Listing Obligations".toList

/-- The fixed replacement headline "Important Update". -/
def importantUpdate : PyStr := "Important Update".toList

/-- `ThumbnailGenerator.clean_title`: remove every occurrence of
"- Intimation", strip whitespace; if the result contains
"Listing Obligations" return "Important Update", else return the stripped
text (stripped once more, as in the source).  The title-casing line after
the `return` in the source is unreachable and hence absent here. -/
def clean_title (prompt : PyStr) : PyStr :=
  let text := strip (pyReplace intimationMarker [] prompt)
  if containsSub listingMarker text then importantUpdate
  else strip text

/-! ### Whitespace-stripping lemmas -/

theorem dropWhile_head_false (p : Char → Bool) :
    ∀ (l : PyStr) (c : Char) (t : PyStr), l.dropWhile p = c :: t → p c = false := by
  intro l
  induction l with
  | nil => intro c t h; simp [List.dropWhile] at h
  | cons a l ih =>
    intro c t h
    by_cases ha : p a
    · rw [List.dropWhile_cons_of_pos ha] at h
      exact ih c t h
    · rw [List.dropWhile_cons_of_neg ha] at h
      cases h
      simpa using ha

theorem dropWhile_eq_self_of_head {p : Char → Bool} {l : PyStr}
    (h : ∀ c t, l = c :: t → p c = false) : l.dropWhile p = l := by
  cases l with
  | nil => rfl
  | cons a t =>
    have := h a t rfl
    simp [List.dropWhile, this]

theorem getLast?_dropWhile (p : Char → Bool) :
    ∀ l : PyStr, l.dropWhile p = [] ∨ (l.dropWhile p).getLast? = l.getLast? := by
  intro l
  induction l with
  | nil => exact Or.inl rfl
  | cons a l ih =>
    by_cases ha : p a
    · rcases ih with h | h
      · exact Or.inl (by rw [List.dropWhile_cons_of_pos ha]; exact h)
      · rcases hdl : l.dropWhile p with _ | ⟨c, t⟩
        · exact Or.inl (by rw [List.dropWhile_cons_of_pos ha]; exact hdl)
        · right
          rw [List.dropWhile_cons_of_pos ha, h]
          rcases l with _ | ⟨b, l'⟩
          · simp [List.dropWhile] at hdl
          · exact (List.getLast?_cons_cons).symm
    · right
      rw [List.dropWhile_cons_of_neg ha]

/-- A list with no whitespace at either end is unchanged by `strip`. -/
theorem strip_eq_self {l : PyStr}
    (hhead : ∀ c, l.head? = some c → c.isWhitespace = false)
    (hlast : ∀ c, l.getLast? = some c → c.isWhitespace = false) :
    strip l = l := by
  unfold strip
  have h1 : l.dropWhile Char.isWhitespace = l := by
    apply dropWhile_eq_self_of_head
    intro c t hc
    exact hhead c (by rw [hc]; rfl)
  rw [h1]
  have h2 : l.reverse.dropWhile Char.isWhitespace = l.reverse := by
    apply dropWhile_eq_self_of_head
    intro c t hc
    apply hlast c
    rw [← List.head?_reverse, hc]
    rfl
  rw [h2, List.reverse_reverse]

/-- `strip` is idempotent. -/
theorem strip_idem (s : PyStr) : strip (strip s) = strip s := by
  rcases he : (s.dropWhile Char.isWhitespace).reverse.dropWhile Char.isWhitespace
      with _ | ⟨c, t⟩
  · have h0 : strip s = [] := by unfold strip; rw [he]; rfl
    rw [h0]
    rfl
  · have h0 : strip s = (c :: t).reverse := by unfold strip; rw [he]
    rw [h0]
    apply strip_eq_self
    · intro c' hc'
      rw [List.head?_reverse] at hc'
      rcases getLast?_dropWhile Char.isWhitespace
          (s.dropWhile Char.isWhitespace).reverse with h | h
      · rw [he] at h; cases h
      · rw [he] at h
        rw [h, List.getLast?_reverse] at hc'
        rcases hd : s.dropWhile Char.isWhitespace with _ | ⟨b, r⟩
        · rw [hd] at hc'; cases hc'
        · rw [hd, List.head?_cons] at hc'
          injection hc' with hbc
          rw [← hbc]
          exact dropWhile_head_false Char.isWhitespace s b r hd
    · intro c' hc'
      rw [List.getLast?_reverse, List.head?_cons] at hc'
      injection hc' with hcc
      rw [← hcc]
      exact dropWhile_head_false Char.isWhitespace _ c t he

/-- C1 (corrected form): `clean_title` first removes every occurrence of
"- Intimation" and strips surrounding whitespace; if the processed text
contains "Listing Obligations" the result is exactly "Important Update",
otherwise the result is the processed (stripped) text — lower-case input
stays lower-case, i.e. no title-casing is applied. -/
theorem clean_title_spec (prompt : PyStr) :
    (containsSub listingMarker (strip (pyReplace intimationMarker [] prompt)) = true →
      clean_title prompt = importantUpdate) ∧
    (containsSub listingMarker (strip (pyReplace intimationMarker [] prompt)) = false →
      clean_title prompt = strip (pyReplace intimationMarker [] prompt)) := by
  constructor
  · intro h
    simp only [clean_title, h, if_true]
  · intro h
    simp only [clean_title, h, Bool.false_eq_true, if_false]
    exact strip_idem _

/-- C1 counterexample: an input with surrounding whitespace contains neither
"- Intimation" nor "Listing Obligations", yet it does not pass through
`clean_title` unchanged — the whitespace is stripped. -/
theorem clean_title_claim_counterexample :
    containsSub intimationMarker " hi ".toList = false ∧
    containsSub listingMarker " hi ".toList = false ∧
    clean_title " hi ".toList ≠ " hi ".toList := by decide

/-- Witness for `clean_title_spec` at concrete inputs. -/
theorem clean_title_spec_witness :
    clean_title "Fine Results - Intimation".toList = "Fine Results".toList ∧
    clean_title "Re Listing Obligations".toList = importantUpdate := by
  constructor
  · have h := (clean_title_spec "Fine Results - Intimation".toList).2
    rw [h (by decide)]
    decide
  · exact (clean_title_spec "Re Listing Obligations".toList).1 (by decide)

/-! ### Text wrapping (`ThumbnailGenerator.wrap_text`) -/

/-- The manual line-break delimiter " - " (space, hyphen, space). -/
def sepDash : PyStr := " - ".toList

/-- The greedy word-accumulation loop of `wrap_text`: `current` is the line
being accumulated; a word joins the line if the widened candidate still fits
`maxWidth`, otherwise the non-empty current line is flushed and the word
starts a new line.  The trailing non-empty line is flushed at the end. -/
def wrapWords (width : PyStr → Nat) (maxWidth : Nat) : List PyStr → PyStr → List PyStr
  | [], current => if current = [] then [] else [current]
  | w :: ws, current =>
    let test := if current = [] then w else current ++ ' ' :: w
    if width test ≤ maxWidth then
      wrapWords width maxWidth ws test
    else if current = [] then
      wrapWords width maxWidth ws w
    else
      current :: wrapWords width maxWidth ws w

/-- `ThumbnailGenerator.wrap_text`: if the text contains " - ", each piece
between delimiters becomes a candidate line (stripped; empty pieces dropped;
over-wide pieces re-wrapped greedily by words); otherwise the whole text is
wrapped greedily by words.  `width` models `draw.textbbox(...)[2]` for the
given font.  `manualStep` is the body of the manual-break loop: strip the
piece, drop it if empty, keep it whole if it fits, else re-wrap it. -/
def manualStep (width : PyStr → Nat) (maxWidth : Nat)
    (lines : List PyStr) (part : PyStr) : List PyStr :=
  let p := strip part
  if p = [] then lines
  else if width p ≤ maxWidth then lines ++ [p]
  else lines ++ wrapWords width maxWidth (pyWords p) []

/-- `ThumbnailGenerator.wrap_text`: see `manualStep` for the manual-break
mode used when the text contains " - ". -/
def wrap_text (width : PyStr → Nat) (text : PyStr) (maxWidth : Nat) : List PyStr :=
  if containsSub sepDash text then
    (pySplit sepDash text).foldl (manualStep width maxWidth) []
  else
    wrapWords width maxWidth (pyWords text) []

/-- Joining a list of lines with single spaces (the inverse view of the
greedy accumulation). -/
def joinSp : List PyStr → PyStr
  | [] => []
  | [l] => l
  | l :: l' :: rest => l ++ ' ' :: joinSp (l' :: rest)

/-! ### Lemmas about words and greedy wrapping -/

theorem wordsAux_mem_ne_nil :
    ∀ (s : PyStr) (acc : PyStr) (w : PyStr), w ∈ wordsAux s acc → w ≠ [] := by
  intro s
  induction s with
  | nil =>
    intro acc w hw
    by_cases hacc : acc = []
    · rw [wordsAux, if_pos hacc] at hw
      cases hw
    · rw [wordsAux, if_neg hacc, List.mem_singleton] at hw
      subst hw
      simpa using hacc
  | cons c rest ih =>
    intro acc w hw
    by_cases hws : c.isWhitespace
    · rw [wordsAux, if_pos hws] at hw
      by_cases hacc : acc = []
      · rw [if_pos hacc] at hw
        exact ih [] w hw
      · rw [if_neg hacc] at hw
        rcases List.mem_cons.mp hw with rfl | h
        · simpa using hacc
        · exact ih [] w h
    · rw [wordsAux, if_neg hws] at hw
      exact ih (c :: acc) w hw

theorem pyWords_mem_ne_nil (s : PyStr) (w : PyStr) (hw : w ∈ pyWords s) : w ≠ [] :=
  wordsAux_mem_ne_nil s [] w hw

theorem wrapWords_mem_ne_nil (width : PyStr → Nat) (mw : Nat) :
    ∀ (ws : List PyStr) (current l : PyStr), (∀ w ∈ ws, w ≠ []) →
      l ∈ wrapWords width mw ws current → l ≠ [] := by
  intro ws
  induction ws with
  | nil =>
    intro current l _ hl
    by_cases hc : current = []
    · rw [wrapWords, if_pos hc] at hl
      cases hl
    · rw [wrapWords, if_neg hc, List.mem_singleton] at hl
      subst hl
      exact hc
  | cons w ws ih =>
    intro current l hws hl
    have hwne : w ≠ [] := hws w (List.mem_cons_self w ws)
    have hws' : ∀ w' ∈ ws, w' ≠ [] := fun w' h => hws w' (List.mem_cons_of_mem w h)
    simp only [wrapWords] at hl
    by_cases hfit :
        width (if current = [] then w else current ++ ' ' :: w) ≤ mw
    · rw [if_pos hfit] at hl
      exact ih _ l hws' hl
    · rw [if_neg hfit] at hl
      by_cases hc : current = []
      · rw [if_pos hc] at hl
        exact ih w l hws' hl
      · rw [if_neg hc] at hl
        rcases List.mem_cons.mp hl with rfl | h
        · exact hc
        · exact ih w l hws' h

theorem wrapWords_ne_nil (width : PyStr → Nat) (mw : Nat) :
    ∀ (ws : List PyStr) (current : PyStr), current ≠ [] →
      wrapWords width mw ws current ≠ [] := by
  intro ws
  induction ws with
  | nil =>
    intro current hc
    rw [wrapWords, if_neg hc]
    simp
  | cons w ws ih =>
    intro current hc
    simp only [wrapWords]
    by_cases hfit :
        width (if current = [] then w else current ++ ' ' :: w) ≤ mw
    · rw [if_pos hfit]
      apply ih
      rw [if_neg hc]
      simp
    · rw [if_neg hfit, if_neg hc]
      simp

theorem joinSp_cons (x : PyStr) (L : List PyStr) (h : L ≠ []) :
    joinSp (x :: L) = x ++ ' ' :: joinSp L := by
  rcases L with _ | ⟨y, r⟩
  · exact absurd rfl h
  · rfl

theorem joinSp_glue (a b : PyStr) (rest : List PyStr) :
    joinSp ((a ++ ' ' :: b) :: rest) = a ++ ' ' :: joinSp (b :: rest) := by
  rcases rest with _ | ⟨x, r⟩
  · rfl
  · show (a ++ ' ' :: b) ++ ' ' :: joinSp (x :: r) = a ++ ' ' :: (b ++ ' ' :: joinSp (x :: r))
    simp [List.append_assoc]

theorem wrapWords_joinSp (width : PyStr → Nat) (mw : Nat) :
    ∀ (ws : List PyStr) (current : PyStr), (∀ w ∈ ws, w ≠ []) → current ≠ [] →
      joinSp (wrapWords width mw ws current) = joinSp (current :: ws) := by
  intro ws
  induction ws with
  | nil =>
    intro current _ hc
    rw [wrapWords, if_neg hc]
  | cons w ws ih =>
    intro current hws hc
    have hwne : w ≠ [] := hws w (List.mem_cons_self w ws)
    have hws' : ∀ w' ∈ ws, w' ≠ [] := fun w' h => hws w' (List.mem_cons_of_mem w h)
    simp only [wrapWords]
    rw [if_neg hc]
    by_cases hfit : width (current ++ ' ' :: w) ≤ mw
    · rw [if_pos hfit]
      have htest : current ++ ' ' :: w ≠ [] := by simp
      rw [ih (current ++ ' ' :: w) hws' htest, joinSp_glue]
      rw [joinSp_cons current (w :: ws) (by simp)]
    · rw [if_neg hfit, if_neg hc]
      have hrec := ih w hws' hwne
      have hne := wrapWords_ne_nil width mw ws w hwne
      rw [joinSp_cons current (wrapWords width mw ws w) hne, hrec]
      rw [joinSp_cons current (w :: ws) (by simp)]

theorem wrapWords_nil_current (width : PyStr → Nat) (mw : Nat) (w : PyStr) (ws : List PyStr) :
    wrapWords width mw (w :: ws) [] = wrapWords width mw ws w := by
  simp only [wrapWords]
  by_cases hfit : width w ≤ mw <;> simp [hfit]

theorem greedy_joinSp (width : PyStr → Nat) (mw : Nat) (ws : List PyStr)
    (hws : ∀ w ∈ ws, w ≠ []) :
    joinSp (wrapWords width mw ws []) = joinSp ws := by
  rcases ws with _ | ⟨w, rest⟩
  · rfl
  · rw [wrapWords_nil_current]
    exact wrapWords_joinSp width mw rest w
      (fun w' h => hws w' (List.mem_cons_of_mem w h))
      (hws w (List.mem_cons_self w rest))

theorem width_le_joinSp (width : PyStr → Nat)
    (hmono : ∀ s t, width s ≤ width (s ++ t)) (l : PyStr) (ws : List PyStr) :
    width l ≤ width (joinSp (l :: ws)) := by
  rcases ws with _ | ⟨x, r⟩
  · exact le_refl _
  · rw [joinSp_cons l (x :: r) (by simp)]
    exact hmono l (' ' :: joinSp (x :: r))

theorem wrapWords_all_fit (width : PyStr → Nat) (mw : Nat)
    (hmono : ∀ s t, width s ≤ width (s ++ t)) :
    ∀ (ws : List PyStr) (current : PyStr), current ≠ [] →
      width (joinSp (current :: ws)) ≤ mw →
      wrapWords width mw ws current = [joinSp (current :: ws)] := by
  intro ws
  induction ws with
  | nil =>
    intro current hc _
    rw [wrapWords, if_neg hc]
    rfl
  | cons w ws ih =>
    intro current hc hfull
    simp only [wrapWords]
    rw [if_neg hc]
    have hglue : joinSp ((current ++ ' ' :: w) :: ws) = joinSp (current :: w :: ws) := by
      rw [joinSp_glue, joinSp_cons current (w :: ws) (by simp)]
    have htestfit : width (current ++ ' ' :: w) ≤ mw :=
      le_trans (width_le_joinSp width hmono (current ++ ' ' :: w) ws)
        (by rw [hglue]; exact hfull)
    rw [if_pos htestfit,
      ih (current ++ ' ' :: w) (by simp) (by rw [hglue]; exact hfull), hglue]

/-- C2 (corrected form): for text without " - ", a width function monotone
under appending, and a budget that fits the whole normalized text, `wrap_text`
returns exactly one line: the input's words joined by single spaces.  (The
line is the whitespace-normalized input, not the merely-trimmed input, and
whitespace-only input yields no lines at all.) -/
theorem wrap_text_single_line (width : PyStr → Nat) (text : PyStr) (mw : Nat)
    (hnd : containsSub sepDash text = false)
    (hmono : ∀ s t, width s ≤ width (s ++ t))
    (hwne : pyWords text ≠ [])
    (hfit : width (joinSp (pyWords text)) ≤ mw) :
    wrap_text width text mw = [joinSp (pyWords text)] := by
  unfold wrap_text
  rw [hnd]
  simp only [Bool.false_eq_true, if_false]
  obtain ⟨w, rest, hws⟩ := List.exists_cons_of_ne_nil hwne
  rw [hws] at hfit ⊢
  rw [wrapWords_nil_current]
  exact wrapWords_all_fit width mw hmono rest w
    (pyWords_mem_ne_nil text w (by rw [hws]; exact List.mem_cons_self w rest)) hfit

/-- C2 counterexample: "a  b" (two inner spaces) contains no " - " and fits
a budget of 100 under the 1-pixel-per-character width function, yet the
single returned line is the word-normalized "a b", not the trimmed input
"a  b" (which is already fully trimmed). -/
theorem wrap_text_claim_counterexample :
    containsSub sepDash "a  b".toList = false ∧
    List.length "a  b".toList ≤ 100 ∧
    strip "a  b".toList = "a  b".toList ∧
    wrap_text List.length "a  b".toList 100 = ["a b".toList] ∧
    "a b".toList ≠ "a  b".toList := by decide

/-- Witness for `wrap_text_single_line` at concrete inputs. -/
theorem wrap_text_single_line_witness :
    wrap_text List.length "hello world".toList 100 = ["hello world".toList] := by
  have h := wrap_text_single_line List.length "hello world".toList 100 (by decide)
    (fun s t => by rw [List.length_append]; exact Nat.le_add_right _ _)
    (by decide) (by decide)
  rw [h]
  decide

/-- C3: wrapping "A - B - C" with every segment fitting the budget yields
exactly the three lines "A", "B", "C"; the " - " delimiter is consumed and
occurs in none of the returned lines. -/
theorem wrap_text_manual_breaks (width : PyStr → Nat) (mw : Nat)
    (hA : width "A".toList ≤ mw) (hB : width "B".toList ≤ mw)
    (hC : width "C".toList ≤ mw) :
    wrap_text width "A - B - C".toList mw = ["A".toList, "B".toList, "C".toList] ∧
    ∀ l ∈ wrap_text width "A - B - C".toList mw, containsSub sepDash l = false := by
  have hsplit : pySplit sepDash "A - B - C".toList =
      ["A".toList, "B".toList, "C".toList] := by decide
  have hcont : containsSub sepDash "A - B - C".toList = true := by decide
  have s1 : ∀ lines, manualStep width mw lines "A".toList = lines ++ ["A".toList] := by
    intro lines
    simp only [manualStep]
    rw [show strip "A".toList = "A".toList from by decide]
    rw [if_neg (by decide), if_pos hA]
  have s2 : ∀ lines, manualStep width mw lines "B".toList = lines ++ ["B".toList] := by
    intro lines
    simp only [manualStep]
    rw [show strip "B".toList = "B".toList from by decide]
    rw [if_neg (by decide), if_pos hB]
  have s3 : ∀ lines, manualStep width mw lines "C".toList = lines ++ ["C".toList] := by
    intro lines
    simp only [manualStep]
    rw [show strip "C".toList = "C".toList from by decide]
    rw [if_neg (by decide), if_pos hC]
  have hmain : wrap_text width "A - B - C".toList mw =
      ["A".toList, "B".toList, "C".toList] := by
    unfold wrap_text
    rw [hcont]
    simp only [if_true]
    rw [hsplit]
    rw [List.foldl_cons, List.foldl_cons, List.foldl_cons, List.foldl_nil]
    rw [s1, s2, s3]
    rfl
  refine ⟨hmain, ?_⟩
  rw [hmain]
  intro l hl
  rcases List.mem_cons.mp hl with rfl | hl
  · decide
  rcases List.mem_cons.mp hl with rfl | hl
  · decide
  rcases List.mem_cons.mp hl with rfl | hl
  · decide
  cases hl

/-- Witness for `wrap_text_manual_breaks` at concrete inputs. -/
theorem wrap_text_manual_breaks_witness :
    wrap_text List.length "A - B - C".toList 10 =
      ["A".toList, "B".toList, "C".toList] :=
  (wrap_text_manual_breaks List.length 10 (by decide) (by decide) (by decide)).1

theorem manual_fold_ne_nil (width : PyStr → Nat) (mw : Nat) :
    ∀ (parts : List PyStr) (lines : List PyStr), (∀ l ∈ lines, l ≠ []) →
      ∀ l ∈ parts.foldl (manualStep width mw) lines, l ≠ [] := by
  intro parts
  induction parts with
  | nil => intro lines hlines l hl; exact hlines l hl
  | cons part parts ih =>
    intro lines hlines l hl
    rw [List.foldl_cons] at hl
    apply ih (manualStep width mw lines part) _ l hl
    intro l' hl'
    simp only [manualStep] at hl'
    by_cases hp : strip part = []
    · rw [if_pos hp] at hl'
      exact hlines l' hl'
    · rw [if_neg hp] at hl'
      by_cases hfit : width (strip part) ≤ mw
      · rw [if_pos hfit] at hl'
        rcases List.mem_append.mp hl' with h | h
        · exact hlines l' h
        · rw [List.mem_singleton] at h
          subst h
          exact hp
      · rw [if_neg hfit] at hl'
        rcases List.mem_append.mp hl' with h | h
        · exact hlines l' h
        · exact wrapWords_mem_ne_nil width mw (pyWords (strip part)) [] l'
            (fun w hw => pyWords_mem_ne_nil _ w hw) h

/-- C9: every line returned by `wrap_text` is non-empty — whitespace-only
pieces are dropped in manual-break mode, and an empty accumulator line is
never flushed in greedy mode. -/
theorem wrap_text_lines_nonempty (width : PyStr → Nat) (text : PyStr) (mw : Nat) :
    ∀ l ∈ wrap_text width text mw, l ≠ [] := by
  intro l hl
  unfold wrap_text at hl
  split at hl
  · exact manual_fold_ne_nil width mw _ [] (by intro l' h; cases h) l hl
  · exact wrapWords_mem_ne_nil width mw (pyWords text) [] l
      (fun w hw => pyWords_mem_ne_nil text w hw) hl

/-- Witness for `wrap_text_lines_nonempty` at concrete inputs. -/
theorem wrap_text_lines_nonempty_witness :
    "a".toList ∈ wrap_text List.length "a - b".toList 100 ∧ "a".toList ≠ [] :=
  ⟨by decide,
    wrap_text_lines_nonempty List.length "a - b".toList 100 "a".toList (by decide)⟩

/-- C10: for text without " - ", joining the returned lines with single
spaces recovers exactly the whitespace-normalized input — the input's words
joined by single spaces, none lost, duplicated, reordered, or altered. -/
theorem wrap_text_words_preserved (width : PyStr → Nat) (text : PyStr) (mw : Nat)
    (hnd : containsSub sepDash text = false) :
    joinSp (wrap_text width text mw) = joinSp (pyWords text) := by
  unfold wrap_text
  rw [hnd]
  simp only [Bool.false_eq_true, if_false]
  exact greedy_joinSp width mw (pyWords text) (fun w hw => pyWords_mem_ne_nil text w hw)

/-- Witness for `wrap_text_words_preserved` at concrete inputs (budget 3
forces a wrap into two lines). -/
theorem wrap_text_words_preserved_witness :
    joinSp (wrap_text List.length "hello  world".toList 3) =
      joinSp (pyWords "hello  world".toList) :=
  wrap_text_words_preserved List.length "hello  world".toList 3 (by decide)

/-! ### Design system tables (`DesignSystem`) -/

/-- An RGB triple. -/
abbrev RGB := Nat × Nat × Nat

/-- A preset's gradient color pairs, keyed by tone. -/
structure GradientSet where
  dark : List (RGB × RGB)
  light : List (RGB × RGB)

/-- `DesignSystem.GRADIENTS`. -/
def GRADIENTS : List (String × GradientSet) :=
  [("modern",
    { dark := [((15, 23, 42), (30, 41, 59)), ((31, 41, 55), (51, 65, 85)),
               ((17, 24, 39), (31, 41, 55)), ((22, 30, 46), (37, 50, 72))],
      light := [((248, 250, 252), (241, 245, 249)), ((254, 252, 232), (252, 211, 77)),
                ((236, 253, 245), (167, 243, 208)), ((245, 243, 255), (196, 181, 253))] }),
   ("corporate",
    { dark := [((30, 58, 138), (29, 78, 216)), ((91, 33, 182), (124, 58, 237)),
               ((6, 78, 59), (5, 150, 105)), ((153, 27, 27), (220, 38, 38))],
      light := [((255, 255, 255), (249, 250, 251)), ((249, 250, 251), (243, 244, 246)),
                ((240, 249, 255), (219, 234, 254)), ((247, 254, 231), (220, 252, 231))] }),
   ("vibrant",
    { dark := [((147, 51, 234), (79, 70, 229)), ((236, 72, 153), (147, 51, 234)),
               ((34, 197, 94), (20, 184, 166)), ((251, 113, 133), (244, 63, 94))],
      light := [((254, 240, 138), (251, 191, 36)), ((165, 243, 252), (34, 211, 238)),
                ((254, 205, 211), (251, 113, 133)), ((196, 181, 253), (139, 92, 246))] })]

/-- A preset's typography profile. -/
structure Typography where
  title_size : Nat
  subtitle_size : Nat
  spacing : Nat

/-- `DesignSystem.TYPOGRAPHY`. -/
def TYPOGRAPHY : List (String × Typography) :=
  [("modern", ⟨72, 40, 15⟩), ("corporate", ⟨68, 38, 12⟩), ("vibrant", ⟨76, 42, 18⟩)]

/-- A preset's layout profile. -/
structure Layout where
  logo_area_ratio : ℚ
  padding : Nat
  logo_max_ratio : ℚ

/-- `DesignSystem.LAYOUTS`. -/
def LAYOUTS : List (String × Layout) :=
  [("modern", ⟨0.35, 50, 0.7⟩), ("corporate", ⟨0.30, 40, 0.6⟩),
   ("vibrant", ⟨0.40, 60, 0.8⟩)]

/-- The preset normalization at the top of `generate_thumbnail`:
`if style_preset not in GRADIENTS: style_preset = "modern"`. -/
def validate_style_preset (p : String) : String :=
  if (GRADIENTS.lookup p).isSome then p else "modern"

theorem GRADIENTS_keys (p : String) (h : (GRADIENTS.lookup p).isSome = true) :
    p = "modern" ∨ p = "corporate" ∨ p = "vibrant" := by
  simp only [GRADIENTS, List.lookup] at h
  by_cases h1 : p == "modern"
  · exact Or.inl (eq_of_beq h1)
  · simp only [h1, Bool.false_eq_true, if_false] at h
    by_cases h2 : p == "corporate"
    · exact Or.inr (Or.inl (eq_of_beq h2))
    · simp only [h2, Bool.false_eq_true, if_false] at h
      by_cases h3 : p == "vibrant"
      · exact Or.inr (Or.inr (eq_of_beq h3))
      · simp [h3] at h

/-- C6: for every style preset string, an unrecognized preset is replaced by
"modern" before any table access, and all three table lookups on the
normalized preset succeed (no lookup can raise). -/
theorem style_preset_total (p : String) :
    ((GRADIENTS.lookup p).isNone = true → validate_style_preset p = "modern") ∧
    (TYPOGRAPHY.lookup (validate_style_preset p)).isSome = true ∧
    (LAYOUTS.lookup (validate_style_preset p)).isSome = true ∧
    (GRADIENTS.lookup (validate_style_preset p)).isSome = true := by
  by_cases h : (GRADIENTS.lookup p).isSome = true
  · have hv : validate_style_preset p = p := by
      rw [validate_style_preset, if_pos h]
    have hkeys := GRADIENTS_keys p h
    refine ⟨?_, ?_, ?_, ?_⟩
    · intro hn
      rw [Option.isNone_iff_eq_none] at hn
      rw [hn] at h
      cases h
    · rcases hkeys with rfl | rfl | rfl <;> rw [hv] <;> decide
    · rcases hkeys with rfl | rfl | rfl <;> rw [hv] <;> decide
    · rcases hkeys with rfl | rfl | rfl <;> rw [hv] <;> decide
  · have hv : validate_style_preset p = "modern" := by
      rw [validate_style_preset, if_neg h]
    refine ⟨fun _ => hv, ?_, ?_, ?_⟩ <;> rw [hv] <;> decide

/-- Witness for `style_preset_total` at the unrecognized preset "funky". -/
theorem style_preset_total_witness :
    validate_style_preset "funky" = "modern" ∧
    (TYPOGRAPHY.lookup (validate_style_preset "funky")).isSome = true ∧
    (GRADIENTS.lookup (validate_style_preset "funky")).isSome = true := by
  have h := style_preset_total "funky"
  exact ⟨h.1 (by decide), h.2.1, h.2.2.2⟩

/-! ### Color darkness (`ThumbnailGenerator.is_color_dark`)

The source computes `0.299 * r + 0.587 * g + 0.114 * b < 127.5` in IEEE
binary64.  Every value in that computation is nonnegative, bounded by 256,
and an integer multiple of 2^-56 (the three constants are the correctly
rounded doubles 5386305154335113/2^54, 5287225962532962/2^53 and
8214565720323785/2^56, and products/sums with 8-bit integers stay on the
2^-56 grid), so doubles are represented below by their integer numerators
at scale 2^-56 and rounding is exact integer arithmetic. -/

/-- Unit in the last place, at scale 2^-56, of a nonnegative binary64 value
below 2^8.  A value below 2^-3 (numerator below 2^53) is exactly
representable on the 2^-56 grid, so its grid ulp is 1. -/
def ulpAt (v : ℤ) : ℤ :=
  if v < 2 ^ 53 then 1
  else if v < 2 ^ 54 then 2
  else if v < 2 ^ 55 then 2 ^ 2
  else if v < 2 ^ 56 then 2 ^ 3
  else if v < 2 ^ 57 then 2 ^ 4
  else if v < 2 ^ 58 then 2 ^ 5
  else if v < 2 ^ 59 then 2 ^ 6
  else if v < 2 ^ 60 then 2 ^ 7
  else if v < 2 ^ 61 then 2 ^ 8
  else if v < 2 ^ 62 then 2 ^ 9
  else if v < 2 ^ 63 then 2 ^ 10
  else 2 ^ 11

/-- Round a nonnegative multiple of 2^-56 (given by its numerator) to the
nearest binary64 value, ties to even — the IEEE default rounding used by
CPython for every arithmetic operation. -/
def roundNearestEven (v : ℤ) : ℤ :=
  let u := ulpAt v
  let q := v / u
  let r := v % u
  if 2 * r < u then u * q
  else if u < 2 * r then u * (q + 1)
  else if q % 2 = 0 then u * q
  else u * (q + 1)

/-- The binary64 value nearest 0.299 (= 5386305154335113/2^54), at scale
2^-56. -/
def c299 : ℤ := 5386305154335113 * 4

/-- The binary64 value nearest 0.587 (= 5287225962532962/2^53), at scale
2^-56. -/
def c587 : ℤ := 5287225962532962 * 8

/-- The binary64 value nearest 0.114 (= 8214565720323785/2^56), at scale
2^-56. -/
def c114 : ℤ := 8214565720323785

/-- 127.5 (exactly representable in binary64), at scale 2^-56. -/
def threshold1275 : ℤ := 255 * 2 ^ 55

/-- The binary64 evaluation of 0.299·r + 0.587·g + 0.114·b exactly as the
source performs it: left-associated, with each constant, product, and sum
correctly rounded to nearest-even.  Result at scale 2^-56. -/
def floatLuminance (r g b : ℕ) : ℤ :=
  let p1 := roundNearestEven (c299 * r)
  let p2 := roundNearestEven (c587 * g)
  let p3 := roundNearestEven (c114 * b)
  roundNearestEven (roundNearestEven (p1 + p2) + p3)

/-- `ThumbnailGenerator.is_color_dark`: the double-precision luminance
compared strictly against 127.5. -/
def is_color_dark (rgb : Nat × Nat × Nat) : Bool :=
  decide (floatLuminance rgb.1 rgb.2.1 rgb.2.2 < threshold1275)

/-- C7 counterexample: (0, 204, 68) has exact luminance
0.299·0 + 0.587·204 + 0.114·68 = 127.5, which the claim classifies as not
dark, yet the program's binary64 sum rounds one ulp below 127.5 and
`is_color_dark` returns true (dark). -/
theorem is_color_dark_claim_counterexample :
    0.299 * ((0 : ℕ) : ℚ) + 0.587 * ((204 : ℕ) : ℚ) +
        0.114 * ((68 : ℕ) : ℚ) = 127.5 ∧
    is_color_dark (0, 204, 68) = true := by
  constructor
  · push_cast
    norm_num
  · decide

/-- C7 (corrected form): `is_color_dark` returns true exactly when the
IEEE-double evaluation of 0.299·R + 0.587·G + 0.114·B is below 127.5;
black is dark, white is not, and a color whose double-computed luminance is
exactly 127.5 is classified as not dark.  (The double value can differ from
the exact luminance by rounding, so exact luminance 127.5 does not imply
not-dark — see the counterexample.) -/
theorem is_color_dark_spec :
    (∀ r g b : Nat, is_color_dark (r, g, b) = true ↔
        floatLuminance r g b < threshold1275) ∧
    is_color_dark (0, 0, 0) = true ∧
    is_color_dark (255, 255, 255) = false ∧
    (∀ r g b : Nat, floatLuminance r g b = threshold1275 →
        is_color_dark (r, g, b) = false) := by
  refine ⟨?_, by decide, by decide, ?_⟩
  · intro r g b
    simp [is_color_dark]
  · intro r g b h
    simp only [is_color_dark, decide_eq_false_iff_not]
    rw [not_lt]
    exact le_of_eq h.symm

/-- Witness for `is_color_dark_spec`: the double-precision luminance of
(22, 206, 0) is exactly 127.5 (its exact luminance, which the rounded sum
happens to hit), and the color is classified as not dark. -/
theorem is_color_dark_spec_witness : is_color_dark (22, 206, 0) = false :=
  is_color_dark_spec.2.2.2 22 206 0 (by decide)

/-! ### Background tone choice in `generate_thumbnail` -/

/-- The background-tone decision of `generate_thumbnail`: with a logo,
`use_dark_bg = not is_color_dark(dominant_color)`; without a logo, a random
boolean is used. -/
def chooseUseDarkBg (logo_present : Bool) (dominant_color : Nat × Nat × Nat)
    (random_choice : Bool) : Bool :=
  if logo_present then !(is_color_dark dominant_color) else random_choice

/-- C5: whenever a logo exists, the chosen background tone is the opposite
of the logo's dominant-color tone: a light dominant color forces a dark
background and a dark dominant color forces a light background. -/
theorem use_dark_bg_opposite (dc : Nat × Nat × Nat) (rc : Bool) :
    chooseUseDarkBg true dc rc = !(is_color_dark dc) ∧
    (is_color_dark dc = false → chooseUseDarkBg true dc rc = true) ∧
    (is_color_dark dc = true → chooseUseDarkBg true dc rc = false) := by
  refine ⟨rfl, ?_, ?_⟩ <;> intro h <;> simp [chooseUseDarkBg, h]

/-- Witness for `use_dark_bg_opposite`: a light (near-white) logo color
yields a dark background. -/
theorem use_dark_bg_opposite_witness :
    chooseUseDarkBg true (250, 250, 250) false = true := by
  apply (use_dark_bg_opposite (250, 250, 250) false).2.1
  decide

/-! ### Gradient rendering (`ThumbnailGenerator.create_gradient_background`,
linear branch) -/

/-- One channel of the linear gradient scanline color: the source computes
int(start + (end - start) * (y / height)); in exact arithmetic that is the
rational (start*height + (end - start)*y) / height truncated toward zero. -/
def gradientChannel (s e : ℤ) (y height : Nat) : ℤ :=
  Int.tdiv (s * height + (e - s) * y) height

/-- The color painted at pixel (x, y) by the linear branch of
`create_gradient_background`: the scanline's single interpolated color,
independent of x (the row is filled with one `draw.line` call). -/
def create_gradient_linear (start_color end_color : ℤ × ℤ × ℤ)
    (height : Nat) (_x y : Nat) : ℤ × ℤ × ℤ :=
  (gradientChannel start_color.1 end_color.1 y height,
   gradientChannel start_color.2.1 end_color.2.1 y height,
   gradientChannel start_color.2.2 end_color.2.2 y height)

theorem gradientChannel_black_white (h y : Nat) :
    gradientChannel 0 255 y h = ((255 * y / h : Nat) : ℤ) := by
  rw [gradientChannel, Int.ofNat_tdiv]
  push_cast
  ring_nf

/-- C4: for the linear gradient from (0,0,0) to (255,255,255) on a height-h
canvas, every pixel of scanline y has all channels equal to the truncation
of 255·y/h; the scanline color is independent of x; scanline 0 is exactly
black; channels are monotone nondecreasing in y; and for h at least 255 the
last scanline's channels are at least 254 (near-white). -/
theorem gradient_black_white_spec (h : Nat) (hpos : 0 < h) :
    (∀ x y, create_gradient_linear (0, 0, 0) (255, 255, 255) h x y =
      (((255 * y / h : Nat) : ℤ), ((255 * y / h : Nat) : ℤ), ((255 * y / h : Nat) : ℤ))) ∧
    (∀ x x' y, create_gradient_linear (0, 0, 0) (255, 255, 255) h x y =
      create_gradient_linear (0, 0, 0) (255, 255, 255) h x' y) ∧
    (∀ x, create_gradient_linear (0, 0, 0) (255, 255, 255) h x 0 = (0, 0, 0)) ∧
    (∀ y y', y ≤ y' → gradientChannel 0 255 y h ≤ gradientChannel 0 255 y' h) ∧
    (255 ≤ h → (254 : ℤ) ≤ gradientChannel 0 255 (h - 1) h) := by
  refine ⟨?_, ?_, ?_, ?_, ?_⟩
  · intro x y
    simp [create_gradient_linear, gradientChannel_black_white]
  · intro x x' y
    rfl
  · intro x
    simp [create_gradient_linear, gradientChannel_black_white]
  · intro y y' hy
    rw [gradientChannel_black_white, gradientChannel_black_white]
    exact_mod_cast Nat.div_le_div_right (Nat.mul_le_mul_left 255 hy)
  · intro h255
    rw [gradientChannel_black_white]
    have : 254 ≤ 255 * (h - 1) / h := by
      rw [Nat.le_div_iff_mul_le hpos]
      omega
    exact_mod_cast this

/-- Witness for `gradient_black_white_spec` at the default canvas height
675: the top scanline is black and the bottom scanline's channel is 254. -/
theorem gradient_black_white_spec_witness :
    create_gradient_linear (0, 0, 0) (255, 255, 255) 675 0 0 = (0, 0, 0) ∧
    (254 : ℤ) ≤ gradientChannel 0 255 674 675 := by
  have hth := gradient_black_white_spec 675 (by norm_num)
  refine ⟨hth.2.2.1 0, ?_⟩
  have := hth.2.2.2.2 (by norm_num)
  simpa using this

/-! ### Output filename (`generate_thumbnail`, save step) -/

/-- A lowercase hexadecimal digit, as produced by uuid4's textual form. -/
def isHexChar (c : Char) : Bool := c.isDigit || ('a' ≤ c && c ≤ 'f')

/-- Two-digit zero-padded decimal rendering (strftime %m, %d, %H, %M, %S for
in-range values). -/
def pad2 (n : Nat) : PyStr := [Nat.digitChar (n / 10 % 10), Nat.digitChar (n % 10)]

/-- Four-digit zero-padded decimal rendering (strftime %Y for the years
1..9999 supported by Python datetime). -/
def pad4 (n : Nat) : PyStr :=
  [Nat.digitChar (n / 1000 % 10), Nat.digitChar (n / 100 % 10),
   Nat.digitChar (n / 10 % 10), Nat.digitChar (n % 10)]

/-- A wall-clock instant as used by the filename format. -/
structure PyDateTime where
  year : Nat
  month : Nat
  day : Nat
  hour : Nat
  minute : Nat
  second : Nat

/-- Modelled library behavior: datetime.now().strftime("%Y%m%d_%H%M%S") —
eight date digits, an underscore, six time digits, all zero-padded. -/
def strftime_ymd_hms (dt : PyDateTime) : PyStr :=
  pad4 dt.year ++ pad2 dt.month ++ pad2 dt.day ++
    '_' :: (pad2 dt.hour ++ pad2 dt.minute ++ pad2 dt.second)

/-- The filename built at the end of `generate_thumbnail`:
ticker, underscore, timestamp, underscore, first 8 characters of a fresh
uuid4, ".png". -/
def thumbnail_filename (ticker : PyStr) (dt : PyDateTime) (uuid_hex8 : PyStr) : PyStr :=
  ticker ++ '_' :: (strftime_ymd_hms dt ++ '_' :: (uuid_hex8 ++ ".png".toList))

theorem digitChar_mod10_isDigit (n : Nat) : (Nat.digitChar (n % 10)).isDigit = true := by
  have h : n % 10 < 10 := Nat.mod_lt _ (by norm_num)
  have hall : ∀ k < 10, (Nat.digitChar k).isDigit = true := by decide
  exact hall _ h

theorem pad2_digits (n : Nat) : ∀ c ∈ pad2 n, c.isDigit = true := by
  intro c hc
  rcases List.mem_cons.mp hc with rfl | hc
  · exact digitChar_mod10_isDigit _
  rcases List.mem_cons.mp hc with rfl | hc
  · exact digitChar_mod10_isDigit _
  cases hc

theorem pad4_digits (n : Nat) : ∀ c ∈ pad4 n, c.isDigit = true := by
  intro c hc
  rcases List.mem_cons.mp hc with rfl | hc
  · exact digitChar_mod10_isDigit _
  rcases List.mem_cons.mp hc with rfl | hc
  · exact digitChar_mod10_isDigit _
  rcases List.mem_cons.mp hc with rfl | hc
  · exact digitChar_mod10_isDigit _
  rcases List.mem_cons.mp hc with rfl | hc
  · exact digitChar_mod10_isDigit _
  cases hc

/-- C8: every generated filename is the ticker, an underscore, 8 date
digits, an underscore, 6 time digits, an underscore, the 8 hex characters
taken from a fresh uuid4, and ".png". -/
theorem thumbnail_filename_pattern (ticker : PyStr) (dt : PyDateTime) (uid : PyStr)
    (_hy1 : 1 ≤ dt.year) (_hy : dt.year ≤ 9999) (_hmo : dt.month ≤ 12)
    (_hd : dt.day ≤ 31) (_hh : dt.hour ≤ 23) (_hmi : dt.minute ≤ 59)
    (_hs : dt.second ≤ 59)
    (hulen : uid.length = 8) (huhex : ∀ c ∈ uid, isHexChar c = true) :
    ∃ d8 t6 : PyStr,
      thumbnail_filename ticker dt uid =
        ticker ++ '_' :: (d8 ++ '_' :: (t6 ++ '_' :: (uid ++ ".png".toList))) ∧
      d8.length = 8 ∧ (∀ c ∈ d8, c.isDigit = true) ∧
      t6.length = 6 ∧ (∀ c ∈ t6, c.isDigit = true) ∧
      uid.length = 8 ∧ (∀ c ∈ uid, isHexChar c = true) := by
  refine ⟨pad4 dt.year ++ pad2 dt.month ++ pad2 dt.day,
    pad2 dt.hour ++ pad2 dt.minute ++ pad2 dt.second,
    ?_, by simp [pad4, pad2], ?_, by simp [pad2], ?_, hulen, huhex⟩
  · simp [thumbnail_filename, strftime_ymd_hms, List.append_assoc]
  · intro c hc
    rcases List.mem_append.mp hc with hc | hc
    · rcases List.mem_append.mp hc with hc | hc
      · exact pad4_digits _ c hc
      · exact pad2_digits _ c hc
    · exact pad2_digits _ c hc
  · intro c hc
    rcases List.mem_append.mp hc with hc | hc
    · rcases List.mem_append.mp hc with hc | hc
      · exact pad2_digits _ c hc
      · exact pad2_digits _ c hc
    · exact pad2_digits _ c hc

/-- Witness for `thumbnail_filename_pattern` at a concrete instant. -/
theorem thumbnail_filename_pattern_witness :
    ∃ d8 t6 : PyStr,
      thumbnail_filename "TCS".toList ⟨2026, 10, 12, 13, 45, 30⟩ "abcd1234".toList =
        "TCS".toList ++ '_' :: (d8 ++ '_' ::
          (t6 ++ '_' :: ("abcd1234".toList ++ ".png".toList))) ∧
      d8.length = 8 ∧ (∀ c ∈ d8, c.isDigit = true) ∧
      t6.length = 6 ∧ (∀ c ∈ t6, c.isDigit = true) ∧
      "abcd1234".toList.length = 8 ∧ (∀ c ∈ "abcd1234".toList, isHexChar c = true) :=
  thumbnail_filename_pattern "TCS".toList ⟨2026, 10, 12, 13, 45, 30⟩ "abcd1234".toList
    (by decide) (by decide) (by decide) (by decide) (by decide) (by decide) (by decide)
    (by decide) (by decide)
